import Mathlib

/-!
Verification of the Document Version & Collaboration Engine specified for the
AdvocAI repository. The repository itself ships only the web client (React
pages under `frontend/src`); the engine is specified through the client's
usage contract. Definitions below marked `Modelled from the spec:` embed the
engine components (VersionStore, PermissionRegistry, CommentThreadEngine,
SignatureLedger, DocumentService) faithfully from the specification's words,
since their server-side code is not part of the repository. The
`fetchDocument` embedding at the end is taken directly from the client code
(`frontend/src/pages/SharedDocumentView.jsx`).
-/

namespace AdvocAI

/-- Share levels, ordered `view < comment < edit` (spec section 4.2). -/
inductive Level
  | view
  | comment
  | edit
deriving DecidableEq, Repr

/-- Numeric rank realising the ordering `view < comment < edit`. -/
def levelRank : Level → Nat
  | .view => 0
  | .comment => 1
  | .edit => 2

/-- Modelled from the spec: a Version is `version_number` (monotonic, starts
at 1), `content` (opaque text blob), author id, created_at timestamp,
optional `signed` flag; immutable once created. -/
structure Version where
  version_number : Nat
  content : String
  author : Nat
  created_at : Nat
  signed : Bool
deriving DecidableEq, Repr

/-- Modelled from the spec: a Comment entry is (author, text, created_at). -/
structure CommentEntry where
  author : Nat
  text : String
  created_at : Nat
deriving DecidableEq, Repr

/-- Thread status: `open` or `resolved` (spec section 4.3); `opened` stands
for the spec's `open`, which is a reserved word. -/
inductive ThreadStatus
  | opened
  | resolved
deriving DecidableEq, Repr

/-- Modelled from the spec: a CommentThread has an id, an anchor into a
specific version's content, a status, an ordered sequence of Comment
entries, and (for the idempotence contract about history entries) an event
history; `author` records who opened it, used by the resolve/reopen
authorship check. -/
structure CommentThread where
  id : Nat
  anchor : String
  versionNumber : Nat
  status : ThreadStatus
  comments : List CommentEntry
  history : List String
  author : Nat
deriving DecidableEq, Repr

/-- Modelled from the spec: a Document aggregate holds identity, title,
owner, the ordered append-only sequence of Versions, the set of
SharePermissions (at most one row per user), and the CommentThreads. -/
structure Document where
  id : Nat
  title : String
  owner : Nat
  versions : List Version
  permissions : List (Nat × Level)
  threads : List CommentThread
deriving DecidableEq, Repr

/-- Error taxonomy of spec section 7. -/
inductive Err
  | NotFound
  | PermissionDenied
  | VersionConflict
  | ValidationError
  | AlreadyExists
deriving DecidableEq, Repr

/-- Modelled from the spec: `latest(documentId)` is the last version of the
append-only sequence; its version number (0 when no version exists yet). -/
def latestNumber (doc : Document) : Nat :=
  match doc.versions.getLast? with
  | some v => v.version_number
  | none => 0

/-- The permission row, if any, a user holds on a document. -/
def lookupLevel (doc : Document) (userId : Nat) : Option Level :=
  (doc.permissions.find? (fun p => p.1 == userId)).map (fun p => p.2)

/-- Modelled from the spec: `checkAccess(documentId, userId, requiredLevel)`
with level ordering `view < comment < edit`; the owner always satisfies
every check. -/
def checkAccess (doc : Document) (userId : Nat) (requiredLevel : Level) : Bool :=
  userId == doc.owner ||
    match lookupLevel doc userId with
    | some l => Nat.ble (levelRank requiredLevel) (levelRank l)
    | none => false

/-- Modelled from the spec: `grant` is an idempotent upsert overwriting any
existing level for that user, keeping at most one row per (document, user). -/
def grant (doc : Document) (userId : Nat) (level : Level) : Document :=
  { doc with permissions :=
      (userId, level) :: doc.permissions.filter (fun p => p.1 != userId) }

/-- Modelled from the spec: `revoke` removes the user's permission row. -/
def revoke (doc : Document) (userId : Nat) : Document :=
  { doc with permissions := doc.permissions.filter (fun p => p.1 != userId) }

/-- Modelled from the spec: registry mutations fail with `PermissionDenied`
when invoked by a non-owner, non-edit-level actor. -/
def grantBy (doc : Document) (actorId userId : Nat) (level : Level) :
    Except Err Document :=
  if checkAccess doc actorId Level.edit then Except.ok (grant doc userId level)
  else Except.error Err.PermissionDenied

/-- Modelled from the spec: actor-checked revoke, as `grantBy`. -/
def revokeBy (doc : Document) (actorId userId : Nat) : Except Err Document :=
  if checkAccess doc actorId Level.edit then Except.ok (revoke doc userId)
  else Except.error Err.PermissionDenied

/-- Modelled from the spec: the core of `VersionStore.appendVersion` — the
optimistic-concurrency check fails with `VersionConflict` when
`expectedLatestVersionNumber` does not equal the current latest version
number; on success the new version_number is exactly
`expectedLatestVersionNumber + 1`. The `sgn` flag is `true` only for the
signature path, which marks its resulting Version `signed = true`. -/
def appendVersionWith (doc : Document) (content : String) (authorId : Nat)
    (expectedLatestVersionNumber : Nat) (now : Nat) (sgn : Bool) :
    Except Err (Document × Version) :=
  if expectedLatestVersionNumber == latestNumber doc then
    let v : Version :=
      { version_number := expectedLatestVersionNumber + 1
        content := content
        author := authorId
        created_at := now
        signed := sgn }
    Except.ok ({ doc with versions := doc.versions ++ [v] }, v)
  else
    Except.error Err.VersionConflict

/-- Modelled from the spec: `appendVersion(documentId, content, authorId,
expectedLatestVersionNumber)` for plain content edits (`signed = false`). -/
def appendVersion (doc : Document) (content : String) (authorId : Nat)
    (expectedLatestVersionNumber : Nat) (now : Nat) :
    Except Err (Document × Version) :=
  appendVersionWith doc content authorId expectedLatestVersionNumber now false

/-- Signature block composition, as in the client
(`SharedDocumentView.jsx`, `onSignatureAdded`): the signature markdown and
the bold party name are appended after a horizontal rule. -/
def signatureBlock (partyName signatureContent : String) : String :=
  "\n\n---\n\n" ++ signatureContent ++ "\n\n**" ++ partyName ++ "**"

/-- Modelled from the spec: `applySignature(documentId, partyName,
signatureContent, actorId)` requires `edit` level; composes the current
latest version's content with the signature block appended, then appends
with optimistic concurrency against the current latest; the resulting
Version is marked `signed = true`. -/
def applySignature (doc : Document) (partyName signatureContent : String)
    (actorId : Nat) (now : Nat) : Except Err (Document × Version) :=
  if checkAccess doc actorId Level.edit then
    match doc.versions.getLast? with
    | some latest =>
        appendVersionWith doc
          (latest.content ++ signatureBlock partyName signatureContent)
          actorId (latestNumber doc) now true
    | none => Except.error Err.NotFound
  else Except.error Err.PermissionDenied

/-- The thread with the given id, if present. -/
def findThread (doc : Document) (threadId : Nat) : Option CommentThread :=
  doc.threads.find? (fun t => t.id == threadId)

/-- Modelled from the spec: `openThread` requires `comment` level or higher
and fails with `PermissionDenied` otherwise; a new thread starts `open`
with the opening comment as its first entry. -/
def openThread (doc : Document) (anchor : String) (versionNumber : Nat)
    (authorId : Nat) (text : String) (now : Nat) :
    Except Err (Document × CommentThread) :=
  if checkAccess doc authorId Level.comment then
    let t : CommentThread :=
      { id := doc.threads.length + 1
        anchor := anchor
        versionNumber := versionNumber
        status := ThreadStatus.opened
        comments := [{ author := authorId, text := text, created_at := now }]
        history := []
        author := authorId }
    Except.ok ({ doc with threads := doc.threads ++ [t] }, t)
  else Except.error Err.PermissionDenied

/-- Modelled from the spec: `reply` requires `comment` level; appends to the
thread's comment sequence; does not alter status. -/
def reply (doc : Document) (threadId authorId : Nat) (text : String)
    (now : Nat) : Except Err (Document × CommentThread) :=
  if checkAccess doc authorId Level.comment then
    match findThread doc threadId with
    | some t =>
        let t' := { t with comments :=
          t.comments ++ [{ author := authorId, text := text, created_at := now }] }
        Except.ok
          ({ doc with threads :=
              doc.threads.map (fun u => if u.id == threadId then t' else u) }, t')
    | none => Except.error Err.NotFound
  else Except.error Err.PermissionDenied

/-- Whether the actor may resolve or reopen the thread: `edit` level or
thread authorship (spec section 4.3). -/
def canResolve (doc : Document) (t : CommentThread) (actorId : Nat) : Bool :=
  checkAccess doc actorId Level.edit || t.author == actorId

/-- Modelled from the spec: `resolve(threadId, actorId)` requires `edit`
level or thread authorship; idempotent — resolving an already-resolved
thread is a no-op returning the unchanged thread, with no new history
entry; resolving an open thread records one history entry. -/
def resolveThread (doc : Document) (threadId actorId : Nat) :
    Except Err (Document × CommentThread) :=
  match findThread doc threadId with
  | some t =>
      if canResolve doc t actorId then
        if t.status == ThreadStatus.resolved then Except.ok (doc, t)
        else
          let t' := { t with status := ThreadStatus.resolved
                             history := t.history ++ ["resolved"] }
          Except.ok
            ({ doc with threads :=
                doc.threads.map (fun u => if u.id == threadId then t' else u) }, t')
      else Except.error Err.PermissionDenied
  | none => Except.error Err.NotFound

/-- Modelled from the spec: `reopen(threadId, actorId)`, the inverse
transition `resolved -> open`, same authorisation and idempotence shape. -/
def reopenThread (doc : Document) (threadId actorId : Nat) :
    Except Err (Document × CommentThread) :=
  match findThread doc threadId with
  | some t =>
      if canResolve doc t actorId then
        if t.status == ThreadStatus.opened then Except.ok (doc, t)
        else
          let t' := { t with status := ThreadStatus.opened
                             history := t.history ++ ["reopened"] }
          Except.ok
            ({ doc with threads :=
                doc.threads.map (fun u => if u.id == threadId then t' else u) }, t')
      else Except.error Err.PermissionDenied
  | none => Except.error Err.NotFound

/-- Modelled from the spec: a Document is created on first content
submission — version 1, author = creator, no permission rows, no threads. -/
def createDocument (id : Nat) (title content : String) (creator now : Nat) :
    Document :=
  { id := id
    title := title
    owner := creator
    versions := [{ version_number := 1, content := content, author := creator,
                   created_at := now, signed := false }]
    permissions := []
    threads := [] }

/-- Modelled from the spec: a Version summary — metadata only, not full
content — as produced by `listVersions`. -/
structure VersionSummary where
  version_number : Nat
  author : Nat
  created_at : Nat
  signed : Bool
deriving DecidableEq, Repr

/-- Modelled from the spec: `listVersions(documentId)` — version summaries
ordered by version_number ascending (the store's order). -/
def listVersions (doc : Document) : List VersionSummary :=
  doc.versions.map (fun v =>
    { version_number := v.version_number, author := v.author,
      created_at := v.created_at, signed := v.signed })

/-- The mutating operations of the engine, for stating per-operation frame
and atomicity properties. -/
inductive Op
  | append (content : String) (authorId expected now : Nat)
  | sign (partyName signatureContent : String) (actorId now : Nat)
  | grantLevel (actorId userId : Nat) (level : Level)
  | revokeLevel (actorId userId : Nat)
  | openThreadOp (anchor : String) (versionNumber authorId : Nat)
      (text : String) (now : Nat)
  | replyOp (threadId authorId : Nat) (text : String) (now : Nat)
  | resolveOp (threadId actorId : Nat)
  | reopenOp (threadId actorId : Nat)

/-- Run one mutating operation against the document aggregate, returning the
updated aggregate or a typed error (spec sections 4 and 7). -/
def runOp (doc : Document) : Op → Except Err Document
  | .append c a e n => (appendVersion doc c a e n).map (fun r => r.1)
  | .sign p s a n => (applySignature doc p s a n).map (fun r => r.1)
  | .grantLevel a u l => grantBy doc a u l
  | .revokeLevel a u => revokeBy doc a u
  | .openThreadOp anc vn a txt n => (openThread doc anc vn a txt n).map (fun r => r.1)
  | .replyOp tid a txt n => (reply doc tid a txt n).map (fun r => r.1)
  | .resolveOp tid a => (resolveThread doc tid a).map (fun r => r.1)
  | .reopenOp tid a => (reopenThread doc tid a).map (fun r => r.1)

/-- The persisted state after an operation: the updated aggregate on
success, the untouched aggregate on failure (spec section 7: a failed
mutation leaves the store exactly as it was). -/
def stepDoc (doc : Document) (op : Op) : Document :=
  match runOp doc op with
  | Except.ok d => d
  | Except.error _ => doc

/-- Documents reachable from creation through successful engine operations. -/
inductive Reachable : Document → Prop
  | created (id : Nat) (title content : String) (creator now : Nat) :
      Reachable (createDocument id title content creator now)
  | step (doc : Document) (op : Op) (doc' : Document) :
      Reachable doc → runOp doc op = Except.ok doc' → Reachable doc'

/-- The number of versions of the document carrying `signed = true`. -/
def countSigned (doc : Document) : Nat :=
  (doc.versions.filter (fun v => v.signed)).length

/-- Versions are numbered consecutively starting at `k + 1`. -/
def numberedFrom : Nat → List Version → Prop
  | _, [] => True
  | k, v :: l => v.version_number = k + 1 ∧ numberedFrom (k + 1) l

/-- The version-sequence invariant of spec section 3: `versions` is never
empty once created and `versions[i].version_number == i + 1`. -/
def VersionsWf (doc : Document) : Prop :=
  doc.versions ≠ [] ∧ numberedFrom 0 doc.versions

end AdvocAI

namespace Frontend

/-- The `share_permissions` object of a fetched conversation, as read by
`SharedDocumentView.jsx` (only `permission_level` is consulted). -/
structure ShareInfo where
  permission_level : String
deriving DecidableEq, Repr

/-- One entry of `conversation.document_versions` as the client reads it:
`version_number` and `content` are the fields `fetchDocument` consults. -/
structure VersionRecord where
  version_number : Nat
  content : String
deriving DecidableEq, Repr

/-- The fetched conversation payload, restricted to the fields
`fetchDocument` reads (`SharedDocumentView.jsx`, lines 90-113). -/
structure ConversationData where
  title : Option String
  share_permissions : Option ShareInfo
  document_versions : List VersionRecord
deriving DecidableEq, Repr

/-- The component state `fetchDocument` sets on success. -/
structure ViewState where
  title : String
  canEdit : Bool
  documentContent : String
  currentVersion : Option Nat
deriving DecidableEq, Repr

/-- Shallow embedding of `fetchDocument` from
`frontend/src/pages/SharedDocumentView.jsx` (lines 87-128):
`fetchVersionContent` stands for the
`GET .../versions/{v}/content/` endpoint and `toHtml` for the Tiptap
markdown-to-HTML conversion, both external collaborators. When
`document_versions` is non-empty the state follows `versionToLoad` or the
last list entry; otherwise content is the fixed placeholder and the current
version is `null` (modelled as `none`). -/
def fetchDocument (conversation : ConversationData) (versionToLoad : Option Nat)
    (fetchVersionContent : Nat → String) (toHtml : String → String) : ViewState :=
  let title := conversation.title.getD "Untitled Document"
  let canEdit :=
    match conversation.share_permissions with
    | some sp => sp.permission_level == "edit"
    | none => false
  if conversation.document_versions.length > 0 then
    match versionToLoad with
    | some v =>
        { title := title, canEdit := canEdit
          documentContent := toHtml (fetchVersionContent v)
          currentVersion := some v }
    | none =>
        match conversation.document_versions.getLast? with
        | some latestVersion =>
            { title := title, canEdit := canEdit
              documentContent := toHtml latestVersion.content
              currentVersion := some latestVersion.version_number }
        | none =>
            { title := title, canEdit := canEdit
              documentContent := "No content available for this document."
              currentVersion := none }
  else
    { title := title, canEdit := canEdit
      documentContent := "No content available for this document."
      currentVersion := none }

end Frontend

namespace AdvocAI

/-- A freshly created document: id 1, empty title and content, owner 7. -/
def baseDoc : Document := createDocument 1 "" "" 7 0

/-- `baseDoc` after one successful plain append expecting version 1. -/
def baseDocV2 : Document := stepDoc baseDoc (Op.append "" 7 1 1)

/-- The version created by the append producing `baseDocV2`. -/
def baseVer2 : Version :=
  { version_number := 2, content := "", author := 7, created_at := 1,
    signed := false }

/-- `baseDoc` with `view` granted to user 5. -/
def viewDoc : Document := grant baseDoc 5 Level.view

/-- `baseDoc` after the owner grants `view` to user 5 through the façade. -/
def grantedDoc : Document := stepDoc baseDoc (Op.grantLevel 7 5 Level.view)

/-- `baseDoc` after the owner applies a signature. -/
def signedDoc : Document := stepDoc baseDoc (Op.sign "p" "sig" 7 1)

/-- The signed version created in `signedDoc`. -/
def signedVer : Version :=
  { version_number := 2, content := "" ++ signatureBlock "p" "sig", author := 7,
    created_at := 1, signed := true }

/-- A document whose version 2 is already signed and whose latest version is
the plain edit 3: sign at version 1, then append content at version 2. -/
def c4doc : Document :=
  stepDoc (stepDoc baseDoc (Op.sign "" "" 7 1)) (Op.append "x" 7 2 2)

/-- `baseDoc` after the owner opens thread 1. -/
def threadDoc0 : Document := stepDoc baseDoc (Op.openThreadOp "a" 1 7 "txt" 2)

/-- `threadDoc0` after the owner resolves thread 1. -/
def threadDoc : Document := stepDoc threadDoc0 (Op.resolveOp 1 7)

/-- Thread 1 of `threadDoc`, already resolved. -/
def resolvedThr : CommentThread :=
  { id := 1, anchor := "a", versionNumber := 1,
    status := ThreadStatus.resolved,
    comments := [{ author := 7, text := "txt", created_at := 2 }],
    history := ["resolved"], author := 7 }

end AdvocAI

namespace Frontend

/-- A fetched conversation with an empty `document_versions` list. -/
def emptyConv : ConversationData :=
  { title := some "T", share_permissions := none, document_versions := [] }

end Frontend

namespace AdvocAI

theorem numberedFrom_append (v : Version) :
    ∀ (l : List Version) (k : Nat),
      numberedFrom k (l ++ [v]) ↔
        numberedFrom k l ∧ v.version_number = k + l.length + 1
  | [], k => by simp [numberedFrom]
  | x :: l, k => by
      show (x.version_number = k + 1 ∧ numberedFrom (k + 1) (l ++ [v])) ↔
        (x.version_number = k + 1 ∧ numberedFrom (k + 1) l) ∧
          v.version_number = k + (x :: l).length + 1
      rw [numberedFrom_append v l (k + 1), List.length_cons]
      constructor
      · rintro ⟨h1, h2, h3⟩
        exact ⟨⟨h1, h2⟩, by omega⟩
      · rintro ⟨⟨h1, h2⟩, h3⟩
        exact ⟨h1, h2, by omega⟩

theorem numberedFrom_getLast :
    ∀ (l : List Version) (k : Nat) (v : Version),
      numberedFrom k l → l.getLast? = some v → v.version_number = k + l.length
  | [], _, _, _, h => by simp at h
  | [x], k, v, hn, h => by
      simp only [List.getLast?_singleton, Option.some.injEq] at h
      subst h
      simpa using hn.1
  | x :: y :: l, k, v, hn, h => by
      rw [List.getLast?_cons_cons] at h
      have ih := numberedFrom_getLast (y :: l) (k + 1) v hn.2 h
      simp only [List.length_cons] at ih ⊢
      omega

theorem latestNumber_eq_length (doc : Document) (h : VersionsWf doc) :
    latestNumber doc = doc.versions.length := by
  obtain ⟨hne, hnum⟩ := h
  unfold latestNumber
  rcases hl : doc.versions.getLast? with _ | v
  · exact absurd (List.getLast?_eq_none_iff.mp hl) hne
  · simpa using numberedFrom_getLast doc.versions 0 v hnum hl

theorem numberedFrom_map_range :
    ∀ (l : List Version) (k : Nat), numberedFrom k l →
      l.map (fun v => v.version_number) = List.range' (k + 1) l.length
  | [], _, _ => by simp
  | x :: l, k, h => by
      have ih := numberedFrom_map_range l (k + 1) h.2
      simp only [List.map_cons, List.length_cons, List.range'_succ, ih, h.1]

theorem numberedFrom_get :
    ∀ (l : List Version) (k : Nat), numberedFrom k l →
      ∀ (i : Nat) (h : i < l.length), (l.get ⟨i, h⟩).version_number = k + i + 1
  | x :: l, k, hn, 0, _ => by simpa using hn.1
  | x :: l, k, hn, i + 1, h => by
      have ih := numberedFrom_get l (k + 1) hn.2 i (by simpa using Nat.lt_of_succ_lt_succ h)
      simp only [List.get] at ih ⊢
      omega

theorem appendVersionWith_ok (doc : Document) (c : String) (a e n : Nat)
    (s : Bool) (d' : Document) (v : Version)
    (h : appendVersionWith doc c a e n s = Except.ok (d', v)) :
    e = latestNumber doc ∧
    d' = { doc with versions := doc.versions ++ [v] } ∧
    v = { version_number := e + 1, content := c, author := a,
          created_at := n, signed := s } := by
  unfold appendVersionWith at h
  split at h
  · rename_i hba
    simp only [Except.ok.injEq, Prod.mk.injEq] at h
    exact ⟨(beq_iff_eq.mp hba), by rw [← h.1, ← h.2], h.2.symm⟩
  · exact absurd h (by simp)

theorem versionsWf_appendWith (doc : Document) (c : String) (a e n : Nat)
    (s : Bool) (d' : Document) (v : Version) (hwf : VersionsWf doc)
    (h : appendVersionWith doc c a e n s = Except.ok (d', v)) :
    VersionsWf d' := by
  obtain ⟨he, hd, hv⟩ := appendVersionWith_ok doc c a e n s d' v h
  subst hd
  refine ⟨by simp, ?_⟩
  rw [show ({ doc with versions := doc.versions ++ [v] } : Document).versions
        = doc.versions ++ [v] from rfl, numberedFrom_append]
  refine ⟨hwf.2, ?_⟩
  rw [hv]
  simp only []
  rw [he, latestNumber_eq_length doc hwf]
  omega

theorem map_fst_ok {α : Type} (r : Except Err (Document × α)) (d' : Document)
    (h : r.map (fun p => p.1) = Except.ok d') :
    ∃ p, r = Except.ok p ∧ p.1 = d' := by
  cases r with
  | ok p => exact ⟨p, rfl, by simpa [Except.map] using h⟩
  | error e => simp [Except.map] at h

theorem grantBy_ok (doc : Document) (a u : Nat) (l : Level) (d' : Document)
    (h : grantBy doc a u l = Except.ok d') :
    checkAccess doc a Level.edit = true ∧ d' = grant doc u l := by
  unfold grantBy at h
  split at h
  · rename_i hc
    simp only [Except.ok.injEq] at h
    exact ⟨hc, h.symm⟩
  · simp at h

theorem revokeBy_ok (doc : Document) (a u : Nat) (d' : Document)
    (h : revokeBy doc a u = Except.ok d') :
    checkAccess doc a Level.edit = true ∧ d' = revoke doc u := by
  unfold revokeBy at h
  split at h
  · rename_i hc
    simp only [Except.ok.injEq] at h
    exact ⟨hc, h.symm⟩
  · simp at h

theorem openThread_ok (doc : Document) (anc : String) (vn a : Nat)
    (txt : String) (n : Nat) (d' : Document) (t : CommentThread)
    (h : openThread doc anc vn a txt n = Except.ok (d', t)) :
    checkAccess doc a Level.comment = true ∧
      d' = { doc with threads := doc.threads ++ [t] } := by
  unfold openThread at h
  split at h
  · rename_i hc
    simp only [Except.ok.injEq, Prod.mk.injEq] at h
    exact ⟨hc, by rw [← h.1, ← h.2]⟩
  · simp at h

theorem applySignature_ok (doc : Document) (p s : String) (a n : Nat)
    (d' : Document) (v : Version)
    (h : applySignature doc p s a n = Except.ok (d', v)) :
    ∃ latest, doc.versions.getLast? = some latest ∧
      checkAccess doc a Level.edit = true ∧
      appendVersionWith doc (latest.content ++ signatureBlock p s) a
        (latestNumber doc) n true = Except.ok (d', v) := by
  unfold applySignature at h
  split at h
  · rename_i hc
    split at h
    · rename_i latest hl
      exact ⟨latest, hl, hc, h⟩
    · simp at h
  · simp at h

theorem reply_ok_shape (doc : Document) (tid a : Nat) (txt : String) (n : Nat)
    (d' : Document) (t' : CommentThread)
    (h : reply doc tid a txt n = Except.ok (d', t')) :
    d'.versions = doc.versions ∧ d'.permissions = doc.permissions := by
  unfold reply at h
  split at h
  · split at h
    · rename_i t hf
      simp only [Except.ok.injEq, Prod.mk.injEq] at h
      rw [← h.1]
      exact ⟨rfl, rfl⟩
    · simp at h
  · simp at h

theorem resolveThread_ok_shape (doc : Document) (tid a : Nat)
    (d' : Document) (t' : CommentThread)
    (h : resolveThread doc tid a = Except.ok (d', t')) :
    d'.versions = doc.versions ∧ d'.permissions = doc.permissions := by
  unfold resolveThread at h
  split at h
  · rename_i t hf
    split at h
    · split at h
      · simp only [Except.ok.injEq, Prod.mk.injEq] at h
        rw [← h.1]
        exact ⟨rfl, rfl⟩
      · simp only [Except.ok.injEq, Prod.mk.injEq] at h
        rw [← h.1]
        exact ⟨rfl, rfl⟩
    · simp at h
  · simp at h

theorem reopenThread_ok_shape (doc : Document) (tid a : Nat)
    (d' : Document) (t' : CommentThread)
    (h : reopenThread doc tid a = Except.ok (d', t')) :
    d'.versions = doc.versions ∧ d'.permissions = doc.permissions := by
  unfold reopenThread at h
  split at h
  · rename_i t hf
    split at h
    · split at h
      · simp only [Except.ok.injEq, Prod.mk.injEq] at h
        rw [← h.1]
        exact ⟨rfl, rfl⟩
      · simp only [Except.ok.injEq, Prod.mk.injEq] at h
        rw [← h.1]
        exact ⟨rfl, rfl⟩
    · simp at h
  · simp at h

theorem runOp_versions_cases (doc : Document) (op : Op) (d' : Document)
    (h : runOp doc op = Except.ok d') :
    d'.versions = doc.versions ∨
      ∃ c a e n s v, appendVersionWith doc c a e n s = Except.ok (d', v) := by
  cases op with
  | append c a e n =>
      obtain ⟨⟨d2, v⟩, hr, hfst⟩ := map_fst_ok _ _ h
      obtain rfl : d2 = d' := hfst
      exact Or.inr ⟨c, a, e, n, false, v, hr⟩
  | sign p s a n =>
      obtain ⟨⟨d2, v⟩, hr, hfst⟩ := map_fst_ok _ _ h
      obtain rfl : d2 = d' := hfst
      obtain ⟨latest, -, -, happ⟩ := applySignature_ok doc p s a n d2 v hr
      exact Or.inr ⟨latest.content ++ signatureBlock p s, a, latestNumber doc, n,
        true, v, happ⟩
  | grantLevel a u l =>
      obtain ⟨-, hd⟩ := grantBy_ok doc a u l d' h
      exact Or.inl (by rw [hd]; rfl)
  | revokeLevel a u =>
      obtain ⟨-, hd⟩ := revokeBy_ok doc a u d' h
      exact Or.inl (by rw [hd]; rfl)
  | openThreadOp anc vn a txt n =>
      obtain ⟨⟨d2, t⟩, hr, hfst⟩ := map_fst_ok _ _ h
      obtain rfl : d2 = d' := hfst
      obtain ⟨-, hd⟩ := openThread_ok doc anc vn a txt n d2 t hr
      exact Or.inl (by subst hd; rfl)
  | replyOp tid a txt n =>
      obtain ⟨⟨d2, t⟩, hr, hfst⟩ := map_fst_ok _ _ h
      obtain rfl : d2 = d' := hfst
      exact Or.inl (reply_ok_shape doc tid a txt n d2 t hr).1
  | resolveOp tid a =>
      obtain ⟨⟨d2, t⟩, hr, hfst⟩ := map_fst_ok _ _ h
      obtain rfl : d2 = d' := hfst
      exact Or.inl (resolveThread_ok_shape doc tid a d2 t hr).1
  | reopenOp tid a =>
      obtain ⟨⟨d2, t⟩, hr, hfst⟩ := map_fst_ok _ _ h
      obtain rfl : d2 = d' := hfst
      exact Or.inl (reopenThread_ok_shape doc tid a d2 t hr).1

theorem versionsWf_runOp (doc : Document) (op : Op) (d' : Document)
    (hwf : VersionsWf doc) (h : runOp doc op = Except.ok d') :
    VersionsWf d' := by
  rcases runOp_versions_cases doc op d' h with heq | ⟨c, a, e, n, s, v, happ⟩
  · exact ⟨heq ▸ hwf.1, heq ▸ hwf.2⟩
  · exact versionsWf_appendWith doc c a e n s d' v hwf happ

theorem reachable_versionsWf (doc : Document) (h : Reachable doc) :
    VersionsWf doc := by
  induction h with
  | created id t c cr n =>
      exact ⟨by simp [createDocument], by simp [createDocument, numberedFrom]⟩
  | step d op d' hr hok ih => exact versionsWf_runOp d op d' ih hok

theorem find?_filter_none (u : Nat) :
    ∀ l : List (Nat × Level),
      (l.filter (fun p => p.1 != u)).find? (fun p => p.1 == u) = none
  | [] => rfl
  | x :: l => by
      by_cases hx : x.1 = u
      · rw [List.filter_cons, if_neg (by simp [hx])]
        exact find?_filter_none u l
      · rw [List.filter_cons, if_pos (by simpa using hx),
          List.find?_cons_of_neg _ (by simpa using hx)]
        exact find?_filter_none u l

theorem lookupLevel_revoke (doc : Document) (u : Nat) :
    lookupLevel (revoke doc u) u = none := by
  unfold lookupLevel revoke
  rw [show ({ doc with permissions :=
        doc.permissions.filter (fun p => p.1 != u) } : Document).permissions
      = doc.permissions.filter (fun p => p.1 != u) from rfl]
  rw [find?_filter_none u doc.permissions]
  rfl

theorem checkAccess_revoke_false (doc : Document) (u : Nat)
    (hu : u ≠ doc.owner) (lvl : Level) :
    checkAccess (revoke doc u) u lvl = false := by
  unfold checkAccess
  rw [lookupLevel_revoke]
  rw [show (revoke doc u).owner = doc.owner from rfl]
  simp [beq_eq_false_iff_ne.mpr hu]

theorem find?_map_update (tid : Nat) (t' : CommentThread)
    (ht : (t'.id == tid) = true) :
    ∀ (l : List CommentThread) (t : CommentThread),
      l.find? (fun u => u.id == tid) = some t →
      (l.map (fun u => if u.id == tid then t' else u)).find?
          (fun u => u.id == tid) = some t'
  | [], t, h => by simp at h
  | x :: l, t, h => by
      by_cases hx : (x.id == tid) = true
      · simp only [List.map_cons, if_pos hx]
        exact List.find?_cons_of_pos _ ht
      · rw [List.find?_cons_of_neg _ (by simpa using hx)] at h
        simp only [List.map_cons, if_neg hx]
        rw [List.find?_cons_of_neg _ (by simpa using hx)]
        exact find?_map_update tid t' ht l t h

/-- C1: for every document and every call `appendVersion(documentId,
content, authorId, expectedLatestVersionNumber)`, the call fails with
`VersionConflict` if and only if `expectedLatestVersionNumber` differs from
the document's current latest version number, and on success the newly
created version's `version_number` equals `expectedLatestVersionNumber + 1`. -/
theorem C1_appendVersion_conflict_iff (doc : Document) (c : String)
    (a e n : Nat) :
    (appendVersion doc c a e n = Except.error Err.VersionConflict ↔
        e ≠ latestNumber doc) ∧
    (∀ d' v, appendVersion doc c a e n = Except.ok (d', v) →
        v.version_number = e + 1) := by
  unfold appendVersion appendVersionWith
  by_cases he : e = latestNumber doc
  · rw [if_pos (beq_iff_eq.mpr he)]
    constructor
    · simp [he]
    · intro d' v h
      simp only [Except.ok.injEq, Prod.mk.injEq] at h
      rw [← h.2]
  · rw [if_neg (by simp [he])]
    constructor
    · simp [he]
    · intro d' v h
      simp at h

/-- Witness for C1: at a one-version document, expecting 5 yields
`VersionConflict`, and an append expecting 1 creates version number 2. -/
theorem C1_witness :
    appendVersion baseDoc "" 7 5 9 = Except.error Err.VersionConflict ∧
    baseVer2.version_number = 1 + 1 :=
  ⟨(C1_appendVersion_conflict_iff baseDoc "" 7 5 9).1.mpr (by decide),
   (C1_appendVersion_conflict_iff baseDoc "" 7 1 1).2 baseDocV2 baseVer2 rfl⟩

/-- C2: when two `appendVersion` calls carry the same
`expectedLatestVersionNumber` (equal to the current latest, as in the spec's
race), the serialization point of the compare-and-append admits the two
calls in some order: the first succeeds, the second then receives
`VersionConflict`, and the latest version number increases by exactly 1,
not 2. Stated over either serialisation order by generality in the call
arguments. -/
theorem C2_concurrent_append_one_wins (doc : Document) (c1 c2 : String)
    (a1 a2 n1 n2 e : Nat) (he : e = latestNumber doc) :
    (∃ d' v, appendVersion doc c1 a1 e n1 = Except.ok (d', v)) ∧
    (∀ d' v, appendVersion doc c1 a1 e n1 = Except.ok (d', v) →
        appendVersion d' c2 a2 e n2 = Except.error Err.VersionConflict ∧
        latestNumber d' = latestNumber doc + 1) := by
  constructor
  · refine ⟨{ doc with versions := doc.versions ++
        [{ version_number := e + 1, content := c1, author := a1,
           created_at := n1, signed := false }] },
      { version_number := e + 1, content := c1, author := a1,
        created_at := n1, signed := false }, ?_⟩
    unfold appendVersion appendVersionWith
    rw [if_pos (beq_iff_eq.mpr he)]
  · intro d' v h
    obtain ⟨-, hd, hv⟩ := appendVersionWith_ok doc c1 a1 e n1 false d' v h
    have hlat : latestNumber d' = e + 1 := by
      rw [hd]
      unfold latestNumber
      rw [show ({ doc with versions := doc.versions ++ [v] } : Document).versions
          = doc.versions ++ [v] from rfl]
      rw [List.getLast?_concat, hv]
    constructor
    · unfold appendVersion appendVersionWith
      rw [if_neg (by rw [beq_iff_eq, hlat]; omega)]
    · rw [hlat, he]

/-- Witness for C2: at a one-version document, the winning append yields
version 2 and a second append still expecting 1 receives `VersionConflict`
with the latest version number increased by exactly 1. -/
theorem C2_witness :
    appendVersion baseDocV2 "" 8 1 2 = Except.error Err.VersionConflict ∧
    latestNumber baseDocV2 = latestNumber baseDoc + 1 :=
  (C2_concurrent_append_one_wins baseDoc "" "" 7 8 1 2 1 rfl).2
    baseDocV2 baseVer2 rfl

/-- C5: every mutating operation is atomic — a failed operation (in
particular a failed `appendVersion`) leaves the persisted aggregate exactly
as it was, and a successful one installs exactly its full result, so no
observable state holds a half-applied version or signature. -/
theorem C5_atomic_mutations (doc : Document) (op : Op) :
    (∀ e, runOp doc op = Except.error e → stepDoc doc op = doc) ∧
    (∀ d', runOp doc op = Except.ok d' → stepDoc doc op = d') := by
  constructor
  · intro e he
    unfold stepDoc
    rw [he]
  · intro d' hd
    unfold stepDoc
    rw [hd]

/-- Witness for C5: a conflicting append at a concrete document leaves the
store exactly as it was. -/
theorem C5_witness : stepDoc baseDoc (Op.append "" 7 5 1) = baseDoc :=
  (C5_atomic_mutations baseDoc (Op.append "" 7 5 1)).1 Err.VersionConflict rfl

/-- C6: `checkAccess(documentId, userId, requiredLevel)` returns true if
and only if the user is the document's owner or holds a granted level at
least `requiredLevel` under the ordering `view < comment < edit`. -/
theorem C6_checkAccess_characterisation (doc : Document) (u : Nat)
    (req : Level) :
    checkAccess doc u req = true ↔
      u = doc.owner ∨
        ∃ l, lookupLevel doc u = some l ∧ levelRank req ≤ levelRank l := by
  unfold checkAccess
  rcases hl : lookupLevel doc u with _ | l
  · simp
  · simp [Nat.ble_eq]

/-- Witness for C6: the owner of a concrete document satisfies the `edit`
check. -/
theorem C6_witness : checkAccess baseDoc 7 Level.edit = true :=
  (C6_checkAccess_characterisation baseDoc 7 Level.edit).mpr (Or.inl rfl)

theorem get_eq_of_append {α : Type} (l l2 t : List α) (hl : l2 = l ++ t)
    (i : Nat) (hi : i < l.length) (hi' : i < l2.length) :
    l2.get ⟨i, hi'⟩ = l.get ⟨i, hi⟩ := by
  subst hl
  simp only [List.get_eq_getElem]
  exact List.getElem_append_left hi

/-- C7: a non-owner user holding only `view`: every `openThread` call by
that user fails with `PermissionDenied` and creates no thread, and after
`revoke(documentId, userId)` every subsequent `checkAccess` for that user
returns false. -/
theorem C7_view_only_and_revoke (doc : Document) (u : Nat)
    (hu : u ≠ doc.owner) (hv : lookupLevel doc u = some Level.view) :
    (∀ anc vn txt n,
        openThread doc anc vn u txt n = Except.error Err.PermissionDenied) ∧
    (∀ anc vn txt n, stepDoc doc (Op.openThreadOp anc vn u txt n) = doc) ∧
    (∀ lvl, checkAccess (revoke doc u) u lvl = false) := by
  have hb : Nat.ble (levelRank Level.comment) (levelRank Level.view) = false := rfl
  have hca : checkAccess doc u Level.comment = false := by
    unfold checkAccess
    rw [hv]
    simp [beq_eq_false_iff_ne.mpr hu, hb]
  refine ⟨?_, ?_, checkAccess_revoke_false doc u hu⟩
  · intro anc vn txt n
    simp [openThread, hca]
  · intro anc vn txt n
    simp [stepDoc, runOp, openThread, hca, Except.map]

/-- Witness for C7: concrete document owned by 7 with `view` granted to 5 —
5's `openThread` is denied, leaves the aggregate unchanged, and after
revocation 5 fails the `view` check. -/
theorem C7_witness :
    openThread viewDoc "a" 1 5 "hello" 3 = Except.error Err.PermissionDenied ∧
    stepDoc viewDoc (Op.openThreadOp "a" 1 5 "hello" 3) = viewDoc ∧
    checkAccess (revoke viewDoc 5) 5 Level.view = false :=
  ⟨(C7_view_only_and_revoke viewDoc 5 (by decide) rfl).1 "a" 1 "hello" 3,
   (C7_view_only_and_revoke viewDoc 5 (by decide) rfl).2.1 "a" 1 "hello" 3,
   (C7_view_only_and_revoke viewDoc 5 (by decide) rfl).2.2 Level.view⟩

/-- C8: every successful mutating operation leaves every previously created
Version unchanged in all fields (the old version list is a prefix of the
new one, entry by entry), and a permission grant or revoke changes only the
SharePermission rows: the versions and threads are untouched and no
Version is created. -/
theorem C8_versions_immutable_frame (doc : Document) (op : Op)
    (d' : Document) (h : runOp doc op = Except.ok d') :
    (∃ tail, d'.versions = doc.versions ++ tail) ∧
    (∀ (i : Nat) (hi : i < doc.versions.length) (hi' : i < d'.versions.length),
        d'.versions.get ⟨i, hi'⟩ = doc.versions.get ⟨i, hi⟩) ∧
    ((∃ a u l, op = Op.grantLevel a u l) ∨ (∃ a u, op = Op.revokeLevel a u) →
        d'.versions = doc.versions ∧ d'.threads = doc.threads) := by
  have hext : ∃ tail, d'.versions = doc.versions ++ tail := by
    rcases runOp_versions_cases doc op d' h with heq | ⟨c, a, e, n, s, v, happ⟩
    · exact ⟨[], by simp [heq]⟩
    · obtain ⟨-, hd, -⟩ := appendVersionWith_ok doc c a e n s d' v happ
      exact ⟨[v], by rw [hd]⟩
  refine ⟨hext, ?_, ?_⟩
  · intro i hi hi'
    obtain ⟨tail, htail⟩ := hext
    exact get_eq_of_append doc.versions d'.versions tail htail i hi hi'
  · rintro (⟨a, u, l, rfl⟩ | ⟨a, u, rfl⟩)
    · obtain ⟨-, hd⟩ := grantBy_ok doc a u l d' h
      subst hd
      exact ⟨rfl, rfl⟩
    · obtain ⟨-, hd⟩ := revokeBy_ok doc a u d' h
      subst hd
      exact ⟨rfl, rfl⟩

/-- Witness for C8: the owner granting `view` to user 5 on a concrete
document leaves versions and threads untouched. -/
theorem C8_witness :
    grantedDoc.versions = baseDoc.versions ∧
    grantedDoc.threads = baseDoc.threads :=
  (C8_versions_immutable_frame baseDoc (Op.grantLevel 7 5 Level.view)
      grantedDoc rfl).2.2 (Or.inl ⟨7, 5, Level.view, rfl⟩)

/-- C3: for every reachable document (created, then any sequence of
successful operations), `listVersions` returns version numbers exactly
`1..N` ascending with no gaps and no duplicates, the version list is never
empty, and the version at 0-indexed position `i` has `version_number`
`i + 1`. -/
theorem C3_listVersions_gapless (doc : Document) (h : Reachable doc) :
    (listVersions doc).map (fun s => s.version_number)
        = List.range' 1 doc.versions.length ∧
    doc.versions ≠ [] ∧
    (∀ (i : Nat) (hi : i < doc.versions.length),
        (doc.versions.get ⟨i, hi⟩).version_number = i + 1) := by
  obtain ⟨hne, hnum⟩ := reachable_versionsWf doc h
  refine ⟨?_, hne, ?_⟩
  · unfold listVersions
    rw [List.map_map]
    have hm := numberedFrom_map_range doc.versions 0 hnum
    simpa [Function.comp] using hm
  · intro i hi
    have hg := numberedFrom_get doc.versions 0 hnum i hi
    omega

/-- Witness for C3: a freshly created concrete document lists exactly
version number 1 and is non-empty. -/
theorem C3_witness :
    (listVersions baseDoc).map (fun s => s.version_number)
        = List.range' 1 baseDoc.versions.length ∧
    baseDoc.versions ≠ [] :=
  ⟨(C3_listVersions_gapless baseDoc (Reachable.created 1 "" "" 7 0)).1,
   (C3_listVersions_gapless baseDoc (Reachable.created 1 "" "" 7 0)).2.1⟩

/-- C4 counterexample: `c4doc` was signed at version 2 and then edited, so
its latest version is 3; a further successful `applySignature` creates the
signed version 4, but `signed = true` then holds on versions 2 and 4 — not
on version 4 only, refuting the claim's "and on no other version". -/
theorem C4_counterexample :
    latestNumber c4doc = 3 ∧
    (applySignature c4doc "q" "s2" 7 3).map
        (fun r => (r.1.versions.filter (fun w => w.signed)).map
          (fun w => w.version_number)) = Except.ok [2, 4] ∧
    ([2, 4] : List Nat) ≠ [4] :=
  ⟨rfl, rfl, by decide⟩

/-- C4 as amended: a successful `applySignature` on a document whose latest
version is N creates exactly one new version N+1 (the signature is never
merged into an existing version), its content is version N's content with
the signature block appended, it is marked `signed = true`, and it is the
only version whose `signed` flag the call sets — every pre-existing version
keeps all its fields, so if no earlier version was signed, N+1 is the only
signed version. -/
theorem C4_applySignature_amended (doc : Document) (p s : String)
    (a n : Nat) (d' : Document) (v : Version)
    (h : applySignature doc p s a n = Except.ok (d', v)) :
    d'.versions = doc.versions ++ [v] ∧
    v.version_number = latestNumber doc + 1 ∧
    (∃ latest, doc.versions.getLast? = some latest ∧
        v.content = latest.content ++ signatureBlock p s) ∧
    v.signed = true ∧
    d'.versions.filter (fun w => w.signed) =
      doc.versions.filter (fun w => w.signed) ++ [v] := by
  obtain ⟨latest, hl, -, happ⟩ := applySignature_ok doc p s a n d' v h
  obtain ⟨-, hd, hv⟩ := appendVersionWith_ok doc _ a _ n true d' v happ
  have hversions : d'.versions = doc.versions ++ [v] := by rw [hd]
  have hsigned : v.signed = true := by rw [hv]
  refine ⟨hversions, by rw [hv], ⟨latest, hl, by rw [hv]⟩, hsigned, ?_⟩
  rw [hversions, List.filter_append]
  simp [hsigned]

/-- Witness for C4 (amended): signing a concrete fresh document produces
exactly the one new signed version 2. -/
theorem C4_witness :
    signedDoc.versions = baseDoc.versions ++ [signedVer] ∧
    signedVer.signed = true :=
  ⟨(C4_applySignature_amended baseDoc "p" "sig" 7 1 signedDoc signedVer
      rfl).1,
   (C4_applySignature_amended baseDoc "p" "sig" 7 1 signedDoc signedVer
      rfl).2.2.2.1⟩

theorem checkAccess_congr (doc doc2 : Document) (u : Nat) (lvl : Level)
    (ho : doc2.owner = doc.owner) (hp : doc2.permissions = doc.permissions) :
    checkAccess doc2 u lvl = checkAccess doc u lvl := by
  unfold checkAccess lookupLevel
  rw [ho, hp]

theorem stepDoc_resolve_of_ok (doc : Document) (tid a : Nat) (d1 : Document)
    (t' : CommentThread)
    (hr : resolveThread doc tid a = Except.ok (d1, t')) :
    stepDoc doc (Op.resolveOp tid a) = d1 := by
  simp only [stepDoc, runOp, hr, Except.map]

theorem stepDoc_resolve_of_error (doc : Document) (tid a : Nat) (e : Err)
    (hr : resolveThread doc tid a = Except.error e) :
    stepDoc doc (Op.resolveOp tid a) = doc := by
  simp only [stepDoc, runOp, hr, Except.map]

theorem resolveThread_ok_inv (doc : Document) (tid a : Nat) (d1 : Document)
    (t' : CommentThread)
    (h : resolveThread doc tid a = Except.ok (d1, t')) :
    ∃ t, findThread doc tid = some t ∧ canResolve doc t a = true ∧
      t'.status = ThreadStatus.resolved ∧ t'.id = t.id ∧
      t'.author = t.author ∧ d1.owner = doc.owner ∧
      d1.permissions = doc.permissions ∧
      ((d1.threads = doc.threads ∧ t' = t) ∨
        d1.threads = doc.threads.map (fun u => if u.id == tid then t' else u)) := by
  unfold resolveThread at h
  split at h
  · rename_i t hf
    split at h
    · rename_i hcr
      split at h
      · rename_i hst
        simp only [Except.ok.injEq, Prod.mk.injEq] at h
        obtain ⟨hd, ht⟩ := h
        subst hd
        subst ht
        exact ⟨t, hf, hcr, beq_iff_eq.mp hst, rfl, rfl, rfl, rfl, Or.inl ⟨rfl, rfl⟩⟩
      · simp only [Except.ok.injEq, Prod.mk.injEq] at h
        obtain ⟨hd, ht⟩ := h
        subst hd
        subst ht
        exact ⟨t, hf, hcr, rfl, rfl, rfl, rfl, rfl, Or.inr rfl⟩
    · simp at h
  · simp at h

/-- C9: `resolve` is idempotent — resolving an already-resolved thread (by
an authorised actor) returns the unchanged document and the unchanged
thread, hence appends no new history entry, and the second of two
consecutive resolve calls is a no-op on the persisted aggregate. -/
theorem C9_resolve_idempotent (doc : Document) (tid a : Nat) :
    (∀ t, findThread doc tid = some t →
        t.status = ThreadStatus.resolved →
        canResolve doc t a = true →
        resolveThread doc tid a = Except.ok (doc, t)) ∧
    stepDoc (stepDoc doc (Op.resolveOp tid a)) (Op.resolveOp tid a) =
      stepDoc doc (Op.resolveOp tid a) := by
  constructor
  · intro t hf hst hcr
    unfold resolveThread
    rw [hf]
    simp [hcr, hst]
  · rcases hres : resolveThread doc tid a with e | ⟨d1, t'⟩
    · have h1 := stepDoc_resolve_of_error doc tid a e hres
      rw [h1]
      exact h1
    · have h1 := stepDoc_resolve_of_ok doc tid a d1 t' hres
      rw [h1]
      obtain ⟨t, hf, hcr, hst', hid, hauth, how, hperm, hthreads⟩ :=
        resolveThread_ok_inv doc tid a d1 t' hres
      have hf' : doc.threads.find? (fun u => u.id == tid) = some t := hf
      have htid : (t.id == tid) = true := by
        simpa using List.find?_some hf'
      have hft' : findThread d1 tid = some t' := by
        unfold findThread
        rcases hthreads with ⟨hsame, hteq⟩ | hmap
        · rw [hsame, hteq]
          exact hf'
        · rw [hmap]
          exact find?_map_update tid t' (by rw [hid]; exact htid) doc.threads t hf'
      have hcr' : canResolve d1 t' a = true := by
        unfold canResolve
        rw [checkAccess_congr doc d1 a Level.edit how hperm, hauth]
        exact hcr
      have hst'' : (t'.status == ThreadStatus.resolved) = true := by
        rw [hst']
        rfl
      have hr1 : resolveThread d1 tid a = Except.ok (d1, t') := by
        unfold resolveThread
        rw [hft']
        simp [hcr', hst'']
      exact stepDoc_resolve_of_ok d1 tid a d1 t' hr1

/-- Witness for C9: resolving the already-resolved thread 1 of a concrete
document returns it unchanged, and the double resolve equals the single
one. -/
theorem C9_witness :
    resolveThread threadDoc 1 7 = Except.ok (threadDoc, resolvedThr) ∧
    stepDoc (stepDoc threadDoc (Op.resolveOp 1 7)) (Op.resolveOp 1 7) =
      stepDoc threadDoc (Op.resolveOp 1 7) :=
  ⟨(C9_resolve_idempotent threadDoc 1 7).1 resolvedThr rfl rfl rfl,
   (C9_resolve_idempotent threadDoc 1 7).2⟩

/-- C10: for every fetched conversation whose `document_versions` list is
empty, `fetchDocument` completes without error, setting the displayed
content to the fixed placeholder string and the current version to `null`
(`none`), for any `versionToLoad` and any external content fetcher and
markdown converter. -/
theorem C10_fetchDocument_empty_versions
    (conversation : Frontend.ConversationData) (vtl : Option Nat)
    (f : Nat → String) (g : String → String)
    (h : conversation.document_versions = []) :
    (Frontend.fetchDocument conversation vtl f g).documentContent =
        "No content available for this document." ∧
    (Frontend.fetchDocument conversation vtl f g).currentVersion = none := by
  unfold Frontend.fetchDocument
  rw [h]
  simp

/-- Witness for C10: a concrete conversation with no versions renders the
placeholder and a `null` current version. -/
theorem C10_witness :
    (Frontend.fetchDocument Frontend.emptyConv none (fun _ => "")
        (fun s => s)).documentContent =
      "No content available for this document." ∧
    (Frontend.fetchDocument Frontend.emptyConv none (fun _ => "")
        (fun s => s)).currentVersion = none :=
  C10_fetchDocument_empty_versions Frontend.emptyConv none (fun _ => "")
    (fun s => s) rfl

end AdvocAI
